import Mathlib

/-!
Verification of the easy-git versioning engine (src/src/easygit.py).

The repository state is embedded shallowly: the on-disk artifacts
(staging cache, HEAD file, commit records, blob store) become fields of a
`Repo` structure, and each operation of the `easyGit` class becomes a pure
function on `Repo`.  Text files are modelled by their content strings;
commit records, which the program reads with `readlines` and writes line
by line, are modelled as their lists of lines.  Crashing with an uncaught
exception is modelled as `none`; a reported (logged) early return is
`some` of the unchanged-or-updated state together with the diagnostics
emitted.  Timestamps are explicit parameters (the program calls
`getTime()`).  SHA-1 is implemented concretely below so that digests can
be evaluated on concrete inputs.
-/

set_option maxRecDepth 100000

namespace EasyGit

/-- Modulus for 32-bit arithmetic. -/
def M32 : Nat := 4294967296

/-- Rotate a 32-bit word left by `b` bits (argument assumed below `2 ^ 32`). -/
def rotl32 (b n : Nat) : Nat := ((n <<< b) % M32) ||| (n >>> (32 - b))

/-- SHA-1 round function `f` for round `i` (FIPS 180; `hashlib.sha1`). -/
def sha1F (i b c d : Nat) : Nat :=
  if i < 20 then (b &&& c) ||| ((4294967295 - b) &&& d)
  else if i < 40 then (b ^^^ c) ^^^ d
  else if i < 60 then ((b &&& c) ||| (b &&& d)) ||| (c &&& d)
  else (b ^^^ c) ^^^ d

/-- SHA-1 round constant for round `i`. -/
def sha1K (i : Nat) : Nat :=
  if i < 20 then 1518500249
  else if i < 40 then 1859775393
  else if i < 60 then 2400959708
  else 3395469782

/-- Pad a byte message per SHA-1: append `0x80`, zeros to 56 mod 64, then the
bit length as 8 big-endian bytes. -/
def sha1Pad (msg : List Nat) : List Nat :=
  let len := msg.length
  let z := (119 - len % 64) % 64
  msg ++ [128] ++ List.replicate z 0 ++
    (List.range 8).map (fun i => len * 8 / 2 ^ (8 * (7 - i)) % 256)

/-- Split a padded byte list into 64-byte chunks. -/
def chunkGo : List Nat → List Nat → Nat → List (List Nat)
  | [], acc, _ => if acc = [] then [] else [acc.reverse]
  | b :: rest, acc, n =>
    if n = 63 then (b :: acc).reverse :: chunkGo rest [] 0
    else chunkGo rest (b :: acc) (n + 1)

/-- Group bytes into big-endian 32-bit words. -/
def toWords : List Nat → List Nat
  | a :: b :: c :: d :: rest => (a * 16777216 + b * 65536 + c * 256 + d) :: toWords rest
  | _ => []

/-- One step of the SHA-1 message-schedule extension. -/
def extendStep (acc : List Nat) (_i : Nat) : List Nat :=
  let n := acc.length
  acc ++ [rotl32 1 (((acc.getD (n - 3) 0) ^^^ (acc.getD (n - 8) 0)) ^^^
                    ((acc.getD (n - 14) 0) ^^^ (acc.getD (n - 16) 0)))]

/-- Extend 16 schedule words to 80. -/
def extendW (w : List Nat) : List Nat := (List.range 64).foldl extendStep w

/-- One SHA-1 compression round on the state `(a, b, c, d, e)` with round
index and schedule word `iw`. -/
def sha1Round (st : Nat × Nat × Nat × Nat × Nat) (iw : Nat × Nat) :
    Nat × Nat × Nat × Nat × Nat :=
  ((rotl32 5 st.1 + sha1F iw.1 st.2.1 st.2.2.1 st.2.2.2.1 + st.2.2.2.2 +
      sha1K iw.1 + iw.2) % M32,
   st.1, rotl32 30 st.2.1, st.2.2.1, st.2.2.2.1)

/-- Process one 64-byte chunk, updating the running hash words. -/
def processChunk (h : Nat × Nat × Nat × Nat × Nat) (chunk : List Nat) :
    Nat × Nat × Nat × Nat × Nat :=
  let w := extendW (toWords chunk)
  let f := ((List.range 80).zip w).foldl sha1Round h
  ((h.1 + f.1) % M32, (h.2.1 + f.2.1) % M32, (h.2.2.1 + f.2.2.1) % M32,
   (h.2.2.2.1 + f.2.2.2.1) % M32, (h.2.2.2.2 + f.2.2.2.2) % M32)

/-- SHA-1 of a byte list, as the five 32-bit hash words. -/
def sha1Words (msg : List Nat) : Nat × Nat × Nat × Nat × Nat :=
  (chunkGo (sha1Pad msg) [] 0).foldl processChunk
    (1732584193, 4023233417, 2562383102, 271733878, 3285377520)

/-- Hexadecimal digit character for a value below 16. -/
def hexDigit (n : Nat) : Char :=
  if n < 10 then Char.ofNat (48 + n) else Char.ofNat (87 + n)

/-- Eight lowercase hex characters of a 32-bit word, most significant first. -/
def word8Hex (n : Nat) : List Char :=
  [hexDigit (n / 268435456 % 16), hexDigit (n / 16777216 % 16),
   hexDigit (n / 1048576 % 16), hexDigit (n / 65536 % 16),
   hexDigit (n / 4096 % 16), hexDigit (n / 256 % 16),
   hexDigit (n / 16 % 16), hexDigit (n % 16)]

/-- UTF-8 encoding of one character (as `str.encode()` does). -/
def charUtf8 (c : Char) : List Nat :=
  let n := c.toNat
  if n < 128 then [n]
  else if n < 2048 then [192 + n / 64, 128 + n % 64]
  else if n < 65536 then [224 + n / 4096, 128 + n / 64 % 64, 128 + n % 64]
  else [240 + n / 262144, 128 + n / 4096 % 64, 128 + n / 64 % 64, 128 + n % 64]

/-- UTF-8 bytes of a string. -/
def strBytes (s : String) : List Nat :=
  s.data.foldr (fun c acc => charUtf8 c ++ acc) []

/-- Hex character list of the five hash words, the `hexdigest()` output. -/
def sha1Hex (w : Nat × Nat × Nat × Nat × Nat) : List Char :=
  word8Hex w.1 ++ word8Hex w.2.1 ++ word8Hex w.2.2.1 ++
    word8Hex w.2.2.2.1 ++ word8Hex w.2.2.2.2

/-- Digest function of easygit.py line 347: `hashlib.sha1(target.encode()).hexdigest()`. -/
def SHA1 (s : String) : String := String.mk (sha1Hex (sha1Words (strBytes s)))

/-- Known-answer test validating the SHA-1 embedding against FIPS 180. -/
theorem sha1_vector_abc : SHA1 "abc" = "a9993e364706816aba3e25717850c26c9cd0d89d" := by
  decide

/-- Known-answer test for the empty message. -/
theorem sha1_vector_empty : SHA1 "" = "da39a3ee5e6b4b0d3255bfef95601890afd80709" := by
  decide

/-! String helpers mirroring the Python string operations the program uses. -/

/-- Boolean test that the first character list is an initial segment of the
second. -/
def startsWithL : List Char → List Char → Bool
  | [], _ => true
  | _ :: _, [] => false
  | a :: as, b :: bs => a == b && startsWithL as bs

/-- Boolean test that `pre` is an initial segment of `s`. -/
def startsWithStr (pre s : String) : Bool := startsWithL pre.data s.data

/-- Substring occurrence on character lists, as the Python operator `in`. -/
def containsL (pat : List Char) : List Char → Bool
  | [] => startsWithL pat []
  | c :: rest => startsWithL pat (c :: rest) || containsL pat rest

/-- Substring occurrence: Python `pat in s`. -/
def containsStr (pat s : String) : Bool := containsL pat.data s.data

/-- Python `s.strip(chr(10))`: remove leading and trailing newline characters. -/
def stripNL (s : String) : String :=
  String.mk (((s.data.dropWhile (· == '\n')).reverse.dropWhile (· == '\n')).reverse)

/-- Python `line.split(sep)` for a one-character separator, accumulating the
current piece in reverse in `acc`. -/
def splitChar (sep : Char) : List Char → List Char → List String
  | [], acc => [String.mk acc.reverse]
  | c :: rest, acc =>
    if c == sep then String.mk acc.reverse :: splitChar sep rest []
    else splitChar sep rest (c :: acc)

/-- Python `line.split(":::")` (easygit.py line 227), scanning left to right. -/
def splitTripleColon : List Char → List Char → List String
  | [], acc => [String.mk acc.reverse]
  | ':' :: ':' :: ':' :: rest, acc =>
    String.mk acc.reverse :: splitTripleColon rest []
  | c :: rest, acc => splitTripleColon rest (c :: acc)

/-- Parse the parent digest out of a commit record's first line, as search
does at easygit.py line 270: `readline().strip(chr(10)).split(":")[-1]`. -/
def parseParent (line : String) : String := (splitChar ':' line.data []).getLastD ""

/-- Index of the first occurrence of `x` in `l`, as Python `l.index(x)`
(`none` models the ValueError). -/
def idxOf : String → List String → Option Nat
  | _, [] => none
  | x, y :: rest => if y = x then some 0 else (idxOf x rest).map (· + 1)

/-- Index of the first occurrence of `x` in `l` at position `start` or later,
as Python `l.index(x, start)`; the returned index is absolute. -/
def idxFrom (x : String) (l : List String) (start : Nat) : Option Nat :=
  (idxOf x (l.drop start)).map (· + start)

/-!
The repository state.  Every persisted artifact the core touches is a field:

* `repoPath` — the `.easygit` metadata directory path (no trailing slash);
* `currentPath` — the process working directory (`os.getcwd()`);
* `files` — the working tree, an association list from absolute file path to
  content; entries nearer the head shadow later ones, so overwriting a file
  is modelled by consing;
* `staging` — the `stagingCache` file: `none` when the file is absent,
  otherwise its list of (newline-stripped) lines;
* `headContent` — the raw content of `commit/HEAD`;
* `commits` — the `commit/<digest>` record files, digest to list of lines;
* `changes` — the blob store: `(commit digest, blob digest)` to content;
* `changeDirs` — the set of `changes/<digest>` directories created so far
  (`os.mkdir` at easygit.py line 179 raises if the directory exists).

Paths supplied to operations are assumed to be absolute single-line strings
and commit messages single-line strings, as the excluded CLI layer provides.
-/
structure Repo where
  repoPath : String
  currentPath : String
  files : List (String × String)
  staging : Option (List String)
  headContent : String
  commits : List (String × List String)
  changes : List ((String × String) × String)
  changeDirs : List String
deriving DecidableEq

/-- Path of the staging artifact, `os.path.join(self.repoPath, "stagingCache")`. -/
def stagingFP (r : Repo) : String := r.repoPath ++ "/stagingCache"

/-- Resolution of the filename arguments of add and remove (easygit.py
lines 63-73 and 118-128): the literal `"."` sentinel enumerates every file
under the working directory (the recursive walk of `getAllChildFiles`,
which skips the metadata directory — metadata files are not in `files`);
otherwise each name is kept when it resolves to an existing file
(`convertToPath`) and skipped with a warning when it does not. -/
def resolveInputs (r : Repo) (fns : List String) : List String :=
  if fns.contains "." then
    (r.files.map Prod.fst).filter (fun p => startsWithStr (r.currentPath ++ "/") p)
  else
    fns.filter (fun fn => (List.lookup fn r.files).isSome)

/-- Canonical list form of a Python `set` built by inserting the elements of
`l` in order: duplicates removed, first occurrence kept.  Python's set
iteration order is unspecified; this order stands for it. -/
def setOf : List String → List String
  | [] => []
  | x :: rest => x :: (setOf rest).filter (fun y => !(y == x))

/-- The add operation (easygit.py lines 47-92): resolve the arguments, merge
with the previously persisted staging set if any, and write back every
member not containing the substring `".easygit"` (line 90). -/
def add (r : Repo) (fns : List String) : Repo :=
  let filePaths := resolveInputs r fns
  let merged :=
    match r.staging with
    | some old => setOf (filePaths ++ old)
    | none => setOf filePaths
  { r with staging := some (merged.filter (fun f => !containsStr ".easygit" f)) }

/-- The remove operation (easygit.py lines 94-147): abort with a logged error
when no staging artifact exists; otherwise drop each resolved argument from
the persisted set, and delete the artifact entirely when the result is empty
(lines 142-147). -/
def remove (r : Repo) (fns : List String) : Repo × List String :=
  match r.staging with
  | none => (r, ["staging file not found"])
  | some st =>
    let filePaths := resolveInputs r fns
    let remaining := filePaths.foldl (fun acc f => acc.erase f) (setOf st)
    if remaining = [] then ({ r with staging := none }, [])
    else ({ r with staging := some remaining }, [])

/-- Read the current content of every path in the list; `none` models the
uncaught exception when some path cannot be opened (easygit.py line 186). -/
def readAll (files : List (String × String)) : List String → Option (List (String × String))
  | [] => some []
  | p :: rest =>
    match List.lookup p files with
    | none => none
    | some c => (readAll files rest).map (fun tl => (p, c) :: tl)

/-- Lines between the two separator markers of a commit record:
`chr(10).join(message)` of an empty message list still contributes one empty
line (easygit.py line 184). -/
def msgLines : List String → List String
  | [] => [""]
  | m => m

/-- Commit record serialization (easygit.py lines 182-197): first line
`HEAD:` plus the parent digest, then the message block between two `=====`
marker lines, then one `path:::digest` association line per staged file. -/
def mkRecord (lastSHA : String) (message : List String) (assoc : List (String × String)) :
    List String :=
  ("HEAD:" ++ lastSHA) :: "Commitment Message:" :: "=====" ::
    (msgLines message ++ ["====="] ++ assoc.map (fun pr => pr.1 ++ ":::" ++ pr.2))

/-- The commit operation (easygit.py lines 149-197) at timestamp `time`:
abort (logged, state unchanged) when no staging artifact exists; otherwise
the commit digest is `SHA1(time ++ staging-file path)` (line 172), HEAD is
overwritten with it, a fresh blob directory is created (`none` models the
`os.mkdir` failure when it already exists), each staged file's current
content is stored under blob digest `SHA1(path ++ content)` (line 190), and
the record is written.  `none` also models an unreadable staged path. -/
def commit (r : Repo) (time : String) (message : List String) :
    Option (Repo × List String) :=
  match r.staging with
  | none => some (r, ["staging file not found"])
  | some st =>
    let targets := setOf st
    let lastSHA := r.headContent
    let cSHA := SHA1 (time ++ stagingFP r)
    if r.changeDirs.contains cSHA then none
    else
      match readAll r.files targets with
      | none => none
      | some contents =>
        let assoc := contents.map (fun pc => (pc.1, SHA1 (pc.1 ++ pc.2)))
        some ({ r with
                  headContent := cSHA,
                  changeDirs := cSHA :: r.changeDirs,
                  changes :=
                    contents.map (fun pc => ((cSHA, SHA1 (pc.1 ++ pc.2)), pc.2)) ++ r.changes,
                  commits := (cSHA, mkRecord lastSHA message assoc) :: r.commits },
              [])

/-- Replay loop of restore (easygit.py lines 225-231): each remaining line
must split on `":::"` into exactly a path and a blob digest; the blob is
read from the target commit's blob directory (`none` models a missing blob
or a malformed line) and written over the destination path. -/
def restoreGo (changes : List ((String × String) × String)) (t : String) :
    List String → List (String × String) → Option (List (String × String))
  | [], files => some files
  | line :: rest, files =>
    match splitTripleColon line.data [] with
    | [fp, sha] =>
      match List.lookup (t, sha) changes with
      | none => none
      | some c => restoreGo changes t rest ((fp, c) :: files)
    | _ => none

/-- Body of restore for a resolved target digest (easygit.py lines 215-231):
report (state unchanged) when the record does not exist; otherwise find the
first marker line at `topIndex`, the second at absolute index `second`, and
replay every line from position `topIndex + second` on (line 224). -/
def restoreFrom (r : Repo) (t : String) : Option (Repo × List String) :=
  match List.lookup t r.commits with
  | none => some (r, ["Target commitment not found, exiting..."])
  | some content =>
    match idxFrom "=====" content 0 with
    | none => none
    | some top =>
      match idxFrom "=====" content (top + 1) with
      | none => none
      | some second =>
        match restoreGo r.changes t (content.drop (top + second)) r.files with
        | none => none
        | some files2 => some ({ r with files := files2 }, [])

/-- The restore operation (easygit.py lines 199-231): with no argument the
target is read from HEAD (newline-stripped), and an empty HEAD is a logged
abort; an explicit argument is used as is. -/
def restore (r : Repo) (target : Option String) : Option (Repo × List String) :=
  match target with
  | none =>
    let t := stripNL r.headContent
    if t = "" then some (r, ["There is no recorded commitment, exiting..."])
    else restoreFrom r t
  | some t => restoreFrom r t

/-- Recursion of search (easygit.py lines 260-281) with `fuel` standing for
`maxDepth - depth` (the entry check `depth >= maxDepth` at line 245 is the
`0` case): `none` when the record does not exist, otherwise follow the
parent parsed from the record's first line until it is empty or the record
is missing or the cap is hit, collecting digests most recent first. -/
def searchGo (commits : List (String × List String)) : Nat → String → Option (List String)
  | 0, _ => none
  | fuel + 1, t =>
    match List.lookup t commits with
    | none => none
    | some content =>
      let parent := parseParent (content.headD "")
      if parent = "" then some [t]
      else
        match searchGo commits fuel parent with
        | none => some [t]
        | some rest => some (t :: rest)

/-- The search operation (easygit.py lines 244-281) called with `depth = 0`:
with no target the digest is read from HEAD (newline-stripped) and an empty
HEAD is a logged failure (`none`); the depth cap check happens before the
HEAD read (line 245). -/
def search (r : Repo) (target : Option String) (maxDepth : Nat) : Option (List String) :=
  match target with
  | none =>
    if maxDepth = 0 then none
    else
      let h := stripNL r.headContent
      if h = "" then none else searchGo r.commits maxDepth h
  | some t => searchGo r.commits maxDepth t

/-- The status operation (easygit.py lines 235-242): run search, then log
`result[0]` annotated as HEAD and the remaining digests.  When search
returns `None` (or an empty list) the subscript raises, an uncaught
exception: modelled as `none`; a normal run returns the logged lines. -/
def status (r : Repo) (target : Option String) (maxDepth : Nat) : Option (List String) :=
  match search r target maxDepth with
  | none => none
  | some [] => none
  | some (h :: tl) => some ((h ++ " <- HEAD") :: tl)

/-! Helper lemmas. -/

theorem strMkData (s : String) : String.mk s.data = s := by cases s; rfl

theorem hexDigit_ne_colon : ∀ m, m < 16 → hexDigit m ≠ ':' := by decide

theorem colon_not_mem_word8Hex (n : Nat) : ':' ∉ word8Hex n := by
  intro hmem
  simp only [word8Hex, List.mem_cons, List.not_mem_nil, or_false] at hmem
  rcases hmem with h | h | h | h | h | h | h | h <;>
    exact hexDigit_ne_colon _ (Nat.mod_lt _ (by decide)) h.symm

theorem sha1_no_colon (s : String) : ':' ∉ (SHA1 s).data := by
  intro hmem
  have h : ':' ∈ sha1Hex (sha1Words (strBytes s)) := hmem
  simp only [sha1Hex, List.mem_append] at h
  rcases h with (((h | h) | h) | h) | h <;> exact colon_not_mem_word8Hex _ h

theorem sha1_ne_empty (s : String) : SHA1 s ≠ "" := by
  intro h
  have h2 : sha1Hex (sha1Words (strBytes s)) = [] := congrArg String.data h
  simp [sha1Hex, word8Hex] at h2

theorem splitChar_of_not_mem (sep : Char) :
    ∀ (l acc : List Char), sep ∉ l →
      splitChar sep l acc = [String.mk (acc.reverse ++ l)] := by
  intro l
  induction l with
  | nil => intro acc h; simp [splitChar]
  | cons c rest ih =>
    intro acc h
    simp only [List.mem_cons, not_or] at h
    have hc : (c == sep) = false := by
      simp only [beq_eq_false_iff_ne, ne_eq]
      exact fun e => h.1 e.symm
    simp only [splitChar, hc, Bool.false_eq_true, if_false]
    rw [ih _ h.2]
    simp

theorem parseParent_head (s : String) (h : ':' ∉ s.data) :
    parseParent ("HEAD:" ++ s) = s := by
  have hd : ("HEAD:" ++ s).data = 'H' :: 'E' :: 'A' :: 'D' :: ':' :: s.data := by
    cases s; rfl
  have step : splitChar ':' ('H' :: 'E' :: 'A' :: 'D' :: ':' :: s.data) [] =
      String.mk ['H', 'E', 'A', 'D'] :: splitChar ':' s.data [] := rfl
  simp only [parseParent, hd, step, splitChar_of_not_mem ':' s.data [] h]
  simp [List.getLastD, strMkData]

theorem mem_setOf_iff (a : String) : ∀ l : List String, a ∈ setOf l ↔ a ∈ l := by
  intro l
  induction l with
  | nil => simp [setOf]
  | cons x rest ih =>
    simp only [setOf, List.mem_cons, List.mem_filter]
    constructor
    · rintro (h | ⟨h1, _⟩)
      · exact Or.inl h
      · exact Or.inr (ih.mp h1)
    · rintro (h | h)
      · exact Or.inl h
      · by_cases hax : a = x
        · exact Or.inl hax
        · exact Or.inr ⟨ih.mpr h, by simp [hax]⟩

theorem nodup_setOf : ∀ l : List String, (setOf l).Nodup := by
  intro l
  induction l with
  | nil => simp [setOf]
  | cons x rest ih =>
    refine List.Nodup.cons ?_ (List.Nodup.filter _ ih)
    intro hmem
    have h := (List.mem_filter.mp hmem).2
    simp at h

theorem readAll_mem (files : List (String × String)) :
    ∀ (ps : List String) (contents : List (String × String)) (f c : String),
      readAll files ps = some contents → f ∈ ps → List.lookup f files = some c →
      (f, c) ∈ contents := by
  intro ps
  induction ps with
  | nil => intro contents f c _ hf; simp at hf
  | cons p rest ih =>
    intro contents f c h hf hl
    simp only [readAll] at h
    cases hlp : List.lookup p files with
    | none => rw [hlp] at h; simp at h
    | some cp =>
      rw [hlp] at h
      cases hra : readAll files rest with
      | none => rw [hra] at h; simp at h
      | some tl =>
        rw [hra] at h
        simp only [Option.map_some', Option.some.injEq] at h
        subst h
        rcases List.mem_cons.mp hf with hfp | hfr
        · subst hfp
          rw [hl] at hlp
          injection hlp with hcp
          subst hcp
          exact List.mem_cons_self _ _
        · exact List.mem_cons_of_mem _ (ih tl f c hra hfr hl)

/-- Characterization of a successful commit: with a persisted staging set,
`commit` returns `some` exactly when every staged path is readable and the
blob directory is fresh, and then the resulting state is the one written by
easygit.py lines 161-197. -/
theorem commit_spec (r : Repo) (t : String) (m : List String) (st : List String)
    (r' : Repo) (l : List String)
    (h1 : r.staging = some st) (h2 : commit r t m = some (r', l)) :
    ∃ contents, readAll r.files (setOf st) = some contents ∧
      r.changeDirs.contains (SHA1 (t ++ stagingFP r)) = false ∧
      l = [] ∧
      r' = { r with
              staging := some st,
              headContent := SHA1 (t ++ stagingFP r),
              changeDirs := SHA1 (t ++ stagingFP r) :: r.changeDirs,
              changes := contents.map
                  (fun pc => ((SHA1 (t ++ stagingFP r), SHA1 (pc.1 ++ pc.2)), pc.2)) ++
                r.changes,
              commits := (SHA1 (t ++ stagingFP r),
                  mkRecord r.headContent m
                    (contents.map (fun pc => (pc.1, SHA1 (pc.1 ++ pc.2))))) ::
                r.commits } := by
  simp only [commit, h1] at h2
  cases hcd : r.changeDirs.contains (SHA1 (t ++ stagingFP r)) with
  | true => rw [hcd] at h2; simp at h2
  | false =>
    rw [hcd] at h2
    simp only [Bool.false_eq_true, if_false] at h2
    cases hra : readAll r.files (setOf st) with
    | none => rw [hra] at h2; simp at h2
    | some contents =>
      rw [hra] at h2
      simp only [Option.some.injEq, Prod.mk.injEq] at h2
      exact ⟨contents, rfl, rfl, h2.2.symm, h2.1.symm⟩

theorem searchGo_zero (commits : List (String × List String)) (t : String) :
    searchGo commits 0 t = none := rfl

theorem searchGo_succ (commits : List (String × List String)) (fuel : Nat) (t : String) :
    searchGo commits (fuel + 1) t =
      match List.lookup t commits with
      | none => none
      | some content =>
        if parseParent (content.headD "") = "" then some [t]
        else
          match searchGo commits fuel (parseParent (content.headD "")) with
          | none => some [t]
          | some rest => some (t :: rest) := rfl

/-! Concrete scenario states used by the witnesses and the C1 evaluation. -/

/-- Fresh repository at `/proj` holding `a.txt` = `"hello"` and
`b.txt` = `"world"`, nothing staged, nothing committed. -/
def repoAB : Repo :=
  ⟨"/proj/.easygit", "/proj",
   [("/proj/a.txt", "hello"), ("/proj/b.txt", "world")], none, "", [], [], []⟩

/-- The repository after staging both files. -/
def repoABStaged : Repo := add repoAB ["/proj/a.txt", "/proj/b.txt"]

/-- The repository after committing both files with message `"first"`. -/
def repoABCommitted : Repo :=
  ((commit repoABStaged "20240101 10-00-00" ["first"]).getD (repoABStaged, [])).1

/-- The committed repository after both working files are deleted from disk. -/
def repoABDeleted : Repo := { repoABCommitted with files := [] }

/-- The working tree produced by `restore()` on `repoABDeleted`. -/
def c1Restored : Repo := ((restore repoABDeleted none).getD (repoABDeleted, ["unreached"])).1

/-- A second commit on top of the first (message `"second"`). -/
def chain2 : Repo :=
  ((commit repoABCommitted "20240101 10-00-01" ["second"]).getD (repoABCommitted, [])).1

/-- A third commit on top of the second (message `"third"`). -/
def chain3 : Repo := ((commit chain2 "20240101 10-00-02" ["third"]).getD (chain2, [])).1

/-! The claims. -/

/-- C9: if no persisted staging artifact exists, commit reports an error and
aborts entirely with the state unchanged — no HEAD update, no blob directory
created, no commit record written. -/
theorem c9_commit_without_staging (r : Repo) (t : String) (m : List String)
    (h : r.staging = none) :
    commit r t m = some (r, ["staging file not found"]) := by
  simp [commit, h]

theorem c9_commit_without_staging_witness :
    commit repoAB "20240101 10-00-00" ["first"] =
      some (repoAB, ["staging file not found"]) :=
  c9_commit_without_staging repoAB "20240101 10-00-00" ["first"] rfl

/-- C8: restore on a digest that names no existing commit record reports a
not-found failure and performs no filesystem writes — the returned state is
the input state unchanged. -/
theorem c8_restore_unknown_target (r : Repo) (d : String)
    (h : List.lookup d r.commits = none) :
    restore r (some d) = some (r, ["Target commitment not found, exiting..."]) := by
  simp [restore, restoreFrom, h]

theorem c8_restore_unknown_target_witness :
    restore repoABCommitted (some "deadbeefdeadbeefdeadbeefdeadbeefdeadbeef") =
      some (repoABCommitted, ["Target commitment not found, exiting..."]) :=
  c8_restore_unknown_target repoABCommitted "deadbeefdeadbeefdeadbeefdeadbeefdeadbeef"
    (by decide)

/-- C5: search stops at the depth cap without an error; with `maxDepth = 1`
it returns exactly the one starting digest whenever that record exists, in
particular on a chain of three commits. -/
theorem c5_depth_cap_one (r : Repo) (t : String) (rec : List String)
    (h : List.lookup t r.commits = some rec) :
    search r (some t) 1 = some [t] := by
  have h1 : searchGo r.commits 1 t = some [t] := by
    rw [show (1 : Nat) = 0 + 1 from rfl, searchGo_succ, h]
    dsimp only
    split
    · rfl
    · rw [searchGo_zero]
  simpa [search] using h1

theorem c5_depth_cap_one_witness :
    chain3.commits.length = 3 ∧
    search chain3 (some chain3.headContent) 1 = some [chain3.headContent] :=
  ⟨by decide,
   c5_depth_cap_one chain3 chain3.headContent
     ((List.lookup chain3.headContent chain3.commits).getD []) (by decide)⟩

/-- C10: when HEAD is empty or the target digest is unknown, search yields
`None` and status subscripts it at index 0, so status ends in an uncaught
exception instead of reporting and returning. -/
theorem c10_status_crashes_without_result (r : Repo) (d : String) :
    (stripNL r.headContent = "" → status r none 5 = none) ∧
    (List.lookup d r.commits = none → status r (some d) 5 = none) := by
  constructor
  · intro h
    simp [status, search, h]
  · intro h
    have hs : searchGo r.commits 5 d = none := by
      rw [show (5 : Nat) = 4 + 1 from rfl, searchGo_succ, h]
    simp [status, search, hs]

theorem c10_status_crashes_without_result_witness :
    status repoAB none 5 = none ∧ status repoABCommitted (some "zzz") 5 = none :=
  ⟨(c10_status_crashes_without_result repoAB "zzz").1 (by decide),
   (c10_status_crashes_without_result repoABCommitted "zzz").2 (by decide)⟩

/-- Resolution of a single explicit path argument naming an existing file. -/
theorem resolveInputs_single (r : Repo) (p c : String)
    (h1 : List.lookup p r.files = some c) (h3 : p ≠ ".") :
    resolveInputs r [p] = [p] := by
  have h3s : ("." == p) = false := beq_eq_false_iff_ne.mpr (Ne.symm h3)
  simp [resolveInputs, List.contains, List.elem, h3s, h1]

/-- Closed form of the staging set written by add. -/
theorem add_staging (r : Repo) (fns : List String) :
    (add r fns).staging =
      some ((setOf (resolveInputs r fns ++ r.staging.getD [])).filter
        (fun f => !containsStr ".easygit" f)) := by
  cases hst : r.staging <;> simp [add, hst]

/-- C6: staging the same existing path twice yields a persisted staging set
of size one containing exactly that path, and every persisted staging set
written by add is duplicate-free. -/
theorem c6_staging_idempotent (r : Repo) (p c : String)
    (h0 : r.staging = none) (h1 : List.lookup p r.files = some c)
    (h2 : containsStr ".easygit" p = false) (h3 : p ≠ ".") :
    (add (add r [p]) [p]).staging = some [p] ∧
    ∀ (r' : Repo) (fns : List String) (l : List String),
      (add r' fns).staging = some l → l.Nodup := by
  have hres : resolveInputs r [p] = [p] := resolveInputs_single r p c h1 h3
  have hfiles : (add r [p]).files = r.files := rfl
  have hres2 : resolveInputs (add r [p]) [p] = [p] :=
    resolveInputs_single (add r [p]) p c (hfiles ▸ h1) h3
  have hadd1 : (add r [p]).staging = some [p] := by
    rw [add_staging, hres, h0]
    simp [setOf, h2]
  constructor
  · rw [add_staging, hres2, hadd1]
    simp [setOf, h2]
  · intro r' fns l hl
    cases hst : r'.staging with
    | none =>
      simp only [add, hst, Option.some.injEq] at hl
      rw [← hl]
      exact List.Nodup.filter _ (nodup_setOf _)
    | some old =>
      simp only [add, hst, Option.some.injEq] at hl
      rw [← hl]
      exact List.Nodup.filter _ (nodup_setOf _)

theorem c6_staging_idempotent_witness :
    (add (add repoAB ["/proj/a.txt"]) ["/proj/a.txt"]).staging = some ["/proj/a.txt"] ∧
    ["/proj/a.txt", "/proj/b.txt"].Nodup :=
  ⟨(c6_staging_idempotent repoAB "/proj/a.txt" "hello" rfl (by decide) (by decide)
      (by decide)).1,
   (c6_staging_idempotent repoAB "/proj/a.txt" "hello" rfl (by decide) (by decide)
      (by decide)).2 repoAB ["/proj/a.txt", "/proj/b.txt"]
     ["/proj/a.txt", "/proj/b.txt"] (by decide)⟩

/-- C7: staging an existing path from the empty state and then unstaging it
leaves the staging artifact absent (deleted, not an empty file), and
whenever remove leaves the resulting set empty the artifact is removed
entirely — remove never persists an empty list. -/
theorem c7_stage_unstage_inverse (r : Repo) (p c : String)
    (h0 : r.staging = none) (h1 : List.lookup p r.files = some c)
    (h2 : containsStr ".easygit" p = false) (h3 : p ≠ ".") :
    (remove (add r [p]) [p]).1.staging = none ∧
    ∀ (r' : Repo) (fns : List String) (l : List String),
      (remove r' fns).1.staging = some l → l ≠ [] := by
  have hres : resolveInputs r [p] = [p] := resolveInputs_single r p c h1 h3
  have hfiles : (add r [p]).files = r.files := rfl
  have hres2 : resolveInputs (add r [p]) [p] = [p] :=
    resolveInputs_single (add r [p]) p c (hfiles ▸ h1) h3
  have hadd1 : (add r [p]).staging = some [p] := by
    rw [add_staging, hres, h0]
    simp [setOf, h2]
  constructor
  · simp [remove, hadd1, hres2, setOf]
  · intro r' fns l hl
    cases hst : r'.staging with
    | none => simp [remove, hst] at hl
    | some st =>
      simp only [remove, hst] at hl
      split at hl
      · simp at hl
      · next hne =>
          simp only [Option.some.injEq] at hl
          rw [← hl]
          exact hne

theorem c7_stage_unstage_inverse_witness :
    (remove (add repoAB ["/proj/a.txt"]) ["/proj/a.txt"]).1.staging = none ∧
    ["/proj/b.txt"] ≠ ([] : List String) :=
  ⟨(c7_stage_unstage_inverse repoAB "/proj/a.txt" "hello" rfl (by decide) (by decide)
      (by decide)).1,
   (c7_stage_unstage_inverse repoAB "/proj/a.txt" "hello" rfl (by decide) (by decide)
      (by decide)).2 repoABStaged ["/proj/a.txt"] ["/proj/b.txt"] (by decide)⟩

/-- Fresh repository whose single working file contains `".easygit"` as a
substring of its name without lying under the metadata directory. -/
def repoSubstr : Repo :=
  ⟨"/proj/.easygit", "/proj", [("/proj/notes.easygit.txt", "z")], none, "", [], [], []⟩

/-- C2 counterexample: the path `/proj/notes.easygit.txt` resolves, does not
fall under the metadata directory `/proj/.easygit`, and yet add drops it
from the persisted staging set (the filter at easygit.py line 90 tests the
substring `".easygit"`, not the directory), so the persisted set is not the
union minus exactly the metadata paths. -/
theorem c2_substring_filter_counterexample :
    resolveInputs repoSubstr ["/proj/notes.easygit.txt"] = ["/proj/notes.easygit.txt"] ∧
    startsWithStr ("/proj/.easygit" ++ "/") "/proj/notes.easygit.txt" = false ∧
    (add repoSubstr ["/proj/notes.easygit.txt"]).staging = some [] := by decide

/-- C2 amended: after every add, a path is in the persisted staging set
exactly when it is in the union of the resolved inputs with the previously
persisted set and does not contain the substring `".easygit"` (which covers
every path under the metadata directory). -/
theorem c2_staging_filter_membership (r : Repo) (fns : List String) (p : String) :
    p ∈ ((add r fns).staging.getD []) ↔
      ((p ∈ resolveInputs r fns ∨ p ∈ r.staging.getD []) ∧
        containsStr ".easygit" p = false) := by
  cases hst : r.staging with
  | none => simp [add, hst, List.mem_filter, mem_setOf_iff]
  | some old => simp [add, hst, List.mem_filter, mem_setOf_iff, List.mem_append]

/-- C4: for every successful commit, the commit identity digest is the hash
of the timestamp string concatenated with the staging-artifact path string
(so it depends on neither the staged content, the message, nor the parent),
and each staged file is stored under the blob digest obtained by hashing
the file's absolute path concatenated with its content. -/
theorem c4_digest_composition (r : Repo) (t : String) (m : List String)
    (st : List String) (r' : Repo) (l : List String)
    (hst : r.staging = some st) (hc : commit r t m = some (r', l)) :
    r'.headContent = SHA1 (t ++ stagingFP r) ∧
    ∀ f c, f ∈ st → List.lookup f r.files = some c →
      ((SHA1 (t ++ stagingFP r), SHA1 (f ++ c)), c) ∈ r'.changes := by
  obtain ⟨cs, hra, _, _, hr⟩ := commit_spec r t m st r' l hst hc
  subst hr
  refine ⟨rfl, ?_⟩
  intro f c hf hlf
  have hm : (f, c) ∈ cs :=
    readAll_mem r.files (setOf st) cs f c hra ((mem_setOf_iff f st).mpr hf) hlf
  exact List.mem_append_left _ (List.mem_map.mpr ⟨(f, c), hm, rfl⟩)

theorem c4_digest_composition_witness :
    repoABCommitted.headContent = SHA1 ("20240101 10-00-00" ++ stagingFP repoABStaged) ∧
    ((SHA1 ("20240101 10-00-00" ++ stagingFP repoABStaged),
        SHA1 ("/proj/a.txt" ++ "hello")), "hello") ∈ repoABCommitted.changes :=
  ⟨(c4_digest_composition repoABStaged "20240101 10-00-00" ["first"]
      ["/proj/a.txt", "/proj/b.txt"] repoABCommitted [] (by decide) (by decide)).1,
   (c4_digest_composition repoABStaged "20240101 10-00-00" ["first"]
      ["/proj/a.txt", "/proj/b.txt"] repoABCommitted [] (by decide) (by decide)).2
     "/proj/a.txt" "hello" (by decide) (by decide)⟩

/-- C3: from a fresh repository with a persisted staging set, two successive
successful commits produce distinct digests, the second record's parent
field (parsed from its first line exactly as search parses it) is the first
commit's digest, and search from the second digest returns the two digests
most recent first. -/
theorem c3_parent_chaining (r r1 r2 : Repo) (st : List String)
    (t1 t2 : String) (m1 m2 l1 l2 : List String)
    (hst : r.staging = some st) (hhd : r.headContent = "")
    (hcd : r.changeDirs = [])
    (h1 : commit r t1 m1 = some (r1, l1)) (h2 : commit r1 t2 m2 = some (r2, l2)) :
    r2.headContent ≠ r1.headContent ∧
    (List.lookup r2.headContent r2.commits).map (fun rc => parseParent (rc.headD "")) =
      some r1.headContent ∧
    search r2 (some r2.headContent) 5 = some [r2.headContent, r1.headContent] := by
  obtain ⟨cs1, hra1, hcon1, hl1, hr1⟩ := commit_spec r t1 m1 st r1 l1 hst h1
  subst hr1
  obtain ⟨cs2, hra2, hcon2, hl2, hr2⟩ := commit_spec _ t2 m2 st r2 l2 rfl h2
  subst hr2
  dsimp only [stagingFP] at hcon2 ⊢
  rw [hcd] at hcon2
  have hne : SHA1 (t2 ++ (r.repoPath ++ "/stagingCache")) ≠
      SHA1 (t1 ++ (r.repoPath ++ "/stagingCache")) := by
    intro he
    rw [he] at hcon2
    simp [List.contains, List.elem] at hcon2
  have hbne12 : (SHA1 (t1 ++ (r.repoPath ++ "/stagingCache")) ==
      SHA1 (t2 ++ (r.repoPath ++ "/stagingCache"))) = false :=
    beq_eq_false_iff_ne.mpr (Ne.symm hne)
  have hpp2 : parseParent
      ((mkRecord (SHA1 (t1 ++ (r.repoPath ++ "/stagingCache"))) m2
        (cs2.map (fun pc => (pc.1, SHA1 (pc.1 ++ pc.2))))).headD "") =
      SHA1 (t1 ++ (r.repoPath ++ "/stagingCache")) := by
    simp only [mkRecord, List.headD_cons]
    exact parseParent_head _ (sha1_no_colon _)
  have hpp1 : parseParent
      ((mkRecord r.headContent m1
        (cs1.map (fun pc => (pc.1, SHA1 (pc.1 ++ pc.2))))).headD "") = "" := by
    rw [hhd]
    simp only [mkRecord, List.headD_cons]
    have he : ("HEAD:" ++ "") = "HEAD:" := rfl
    rw [he]
    decide
  refine ⟨hne, ?_, ?_⟩
  · simp only [List.lookup, beq_self_eq_true, Option.map_some', hpp2]
  · simp only [search]
    rw [show (5 : Nat) = 4 + 1 from rfl, searchGo_succ]
    simp only [List.lookup, beq_self_eq_true]
    rw [hpp2, if_neg (sha1_ne_empty _)]
    rw [show (4 : Nat) = 3 + 1 from rfl, searchGo_succ]
    simp only [List.lookup, hbne12, beq_self_eq_true]
    rw [hpp1]
    simp

/-- The second commit of the concrete two-commit chain, taken apart for the
C3 witness. -/
theorem c3_parent_chaining_witness :
    chain2.headContent ≠ repoABCommitted.headContent ∧
    (List.lookup chain2.headContent chain2.commits).map
        (fun rc => parseParent (rc.headD "")) = some repoABCommitted.headContent ∧
    search chain2 (some chain2.headContent) 5 =
      some [chain2.headContent, repoABCommitted.headContent] :=
  c3_parent_chaining repoABStaged repoABCommitted chain2
    ["/proj/a.txt", "/proj/b.txt"] "20240101 10-00-00" "20240101 10-00-01"
    ["first"] ["second"] [] []
    (by decide) (by decide) (by decide) (by decide) (by decide)

/-- C1: evaluation of the commit/restore round trip at the spec's own test
input.  The commit record lists both files, but restore computes its start
index as `topIndex + content.index("=====", topIndex + 1)` (easygit.py line
224), which is one past the line after the second marker, so the first
association line is skipped: only `b.txt` is rewritten and `a.txt` is not
recreated. -/
theorem c1_restore_skips_first_association :
    List.lookup repoABCommitted.headContent repoABCommitted.commits =
      some ["HEAD:", "Commitment Message:", "=====", "first", "=====",
            "/proj/a.txt:::ce23b444e6e344eca0f8bdb42ec8fc1bc6c6e5bc",
            "/proj/b.txt:::980055ab188ba3dd3135ea630a7f4443631949c0"] ∧
    (restore repoABDeleted none).isSome = true ∧
    List.lookup "/proj/b.txt" c1Restored.files = some "world" ∧
    List.lookup "/proj/a.txt" c1Restored.files = none := by decide

end EasyGit
